import Mathlib

/-!
Verification development for the task-registration and resolution module
of lm-evaluation-harness (`lm_eval/tasks/__init__.py`): a shallow embedding
of its registry state, prompt expansion, discovery walker, group expander and
resolution engine, together with theorems settling the specification claims
against the embedded code.
-/

namespace LmEval

/- Python configuration values as they appear in definition records: strings,
sequences, and nested records; the nested lists are encoded mutually so that
equality is decidable. -/
mutual
inductive Val where
  | s : String → Val
  | vlist : ValList → Val
  | vdict : KVList → Val
deriving DecidableEq
inductive ValList where
  | nil : ValList
  | cons : Val → ValList → ValList
deriving DecidableEq
inductive KVList where
  | nil : KVList
  | cons : String → Val → KVList → KVList
deriving DecidableEq
end

/-- Sequence payload of a `Val.vlist` as an ordinary list. -/
def ValList.toList : ValList → List Val
  | ValList.nil => []
  | ValList.cons v rest => v :: rest.toList

/-- Record payload of a `Val.vdict` as an ordinary key-value list. -/
def KVList.toDict : KVList → List (String × Val)
  | KVList.nil => []
  | KVList.cons k v rest => (k, v) :: rest.toDict

/-- Python dict modelled as an insertion sequence of key-value entries; a later
entry for a key shadows an earlier one, matching the semantics of item
assignment and of merges written with dict unpacking. -/
abbrev AList (α : Type) := List (String × α)

/-- Configuration record type (a Python dict of config values). -/
abbrev Dict := AList Val

/-- Lookup of a key: the value of the most recent entry for it. -/
def alGet {α : Type} (d : AList α) (k : String) : Option α :=
  (d.reverse.find? (fun p => p.1 == k)).map (fun p => p.2)

/-- Membership test for a key (`k in d` in Python). -/
def alHasKey {α : Type} (d : AList α) (k : String) : Bool :=
  d.any (fun p => p.1 == k)

/-- Item assignment `d[k] = v`. -/
def alInsert {α : Type} (d : AList α) (k : String) (v : α) : AList α :=
  d ++ [(k, v)]

/-- Dict merge: entries of `b` shadow entries of `a`. -/
def alMerge {α : Type} (a b : AList α) : AList α := a ++ b

/-- Key-set disjointness of two mappings. -/
def alDisjoint {α β : Type} (a : AList α) (b : AList β) : Bool :=
  a.all (fun p => !(alHasKey b p.1))

/-- Python str() of a config value where it appears in name formatting; only
string-valued identifier fields reach name derivation in this module, so the
rendering of container values is abbreviated. -/
def pyStr : Val → String
  | Val.s str => str
  | Val.vlist _ => "<list>"
  | Val.vdict _ => "<dict>"

/-- Exceptions of the embedded module; `fuelExhausted` stands for the
interpreter recursion limit hit by the unbounded recursion of
`get_task_dict` on cyclic group references. -/
inductive PyErr where
  | keyError : String → PyErr
  | typeError : PyErr
  | valueError : String → PyErr
  | importError : String → PyErr
  | otherError : String → PyErr
  | assertionError : PyErr
  | fuelExhausted : PyErr
deriving DecidableEq

/-- Decidable equality for fallible results, so that concrete runs of the
embedded functions can be checked by evaluation. -/
instance {ε α : Type} [DecidableEq ε] [DecidableEq α] : DecidableEq (Except ε α) := fun x y =>
  match x, y with
  | Except.ok a, Except.ok b => decidable_of_iff (a = b) (by simp)
  | Except.error a, Except.error b => decidable_of_iff (a = b) (by simp)
  | Except.ok _, Except.error _ => isFalse (by simp)
  | Except.error _, Except.ok _ => isFalse (by simp)

/-- Runtime object standing for a synthesized ConfigurableTask subclass or a
caller-supplied live task object: an identity, the attached CONFIG record, an
optional EVAL_HARNESS_NAME attribute and a type name. -/
structure PyObj where
  oid : Nat
  config : Dict
  evalHarnessName : Option String
  typeName : String
deriving DecidableEq

/-- Value stored in TASK_REGISTRY: either a task class, or a tuple whose
second component is a class or None (`register_configurable_group` unwraps
tuple values before reading CONFIG). -/
inductive RegVal where
  | cls : PyObj → RegVal
  | tup : Option PyObj → RegVal
deriving DecidableEq

/-- Mutable global state of `lm_eval.api.registry`: TASK_REGISTRY,
GROUP_REGISTRY and the ALL_TASKS namespace set, plus a counter supplying
fresh identities for synthesized classes. -/
structure Registries where
  taskRegistry : AList RegVal
  groupRegistry : AList (List String)
  allTasks : List String
  nextOid : Nat
deriving DecidableEq

/-- Set insertion into the namespace set (`ALL_TASKS.add`). -/
def addName (l : List String) (n : String) : List String :=
  if n ∈ l then l else l ++ [n]

/-- Modelled from the spec: `register_task` of `lm_eval.api.registry` is not
under src/; it inserts or overwrites name → factory and adds the name to the
namespace set. -/
def registerTaskReg (st : Registries) (name : String) (obj : PyObj) : Registries :=
  { st with taskRegistry := alInsert st.taskRegistry name (RegVal.cls obj),
            allTasks := addName st.allTasks name }

/-- Modelled from the spec: `register_group` of `lm_eval.api.registry` is not
under src/; a new group gets a membership list seeded with the grouped task
name, an existing group appends, and group names belong to the namespace set. -/
def registerGroupReg (st : Registries) (gname : String) (taskName : String) : Registries :=
  match alGet st.groupRegistry gname with
  | some members =>
      { st with groupRegistry := alInsert st.groupRegistry gname (members ++ [taskName]),
                allTasks := addName st.allTasks gname }
  | none =>
      { st with groupRegistry := alInsert st.groupRegistry gname [taskName],
                allTasks := addName st.allTasks gname }

/-- Synthesis of the `...ConfigurableTask` subclass holding the given config;
`TaskConfig(**config)` followed by `to_dict(keep_callable=True)` round-trips
the record, so the class carries the record itself. -/
def freshObj (st : Registries) (cfg : Dict) (tname : String) : PyObj × Registries :=
  (⟨st.nextOid, cfg, none, tname ++ "ConfigurableTask"⟩,
   { st with nextOid := st.nextOid + 1 })

/-- Embedding of `register_configurable_task`: synthesize the subclass,
register it under its task name, then look at the group field; a group value
equal to the task value raises ValueError after the task registration already
happened. The returned state holds every mutation made before a raise.
Group-list entries that are not names are ignored (the discovery flow only
produces name strings there). -/
def register_configurable_task (cfg : Dict) (st : Registries) :
    Registries × Option PyErr :=
  match alGet cfg "task" with
  | none => (st, some (PyErr.keyError "task"))
  | some (Val.s tname) =>
      let p := freshObj st cfg tname
      let st2 := registerTaskReg p.2 tname p.1
      match alGet cfg "group" with
      | none => (st2, none)
      | some gv =>
          if gv = Val.s tname then
            (st2, some (PyErr.valueError "task and group name cannot be the same"))
          else
            let gs := match gv with
              | Val.s g => [g]
              | Val.vlist l => l.toList.filterMap (fun v => match v with
                  | Val.s g => some g
                  | _ => none)
              | _ => []
            (gs.foldl (fun acc g => registerGroupReg acc g tname) st2, none)
  | some _ => (st, some PyErr.typeError)

/-- Embedding of `get_task_name_from_config`: format-based name derivation; a
missing dataset_path key surfaces as the KeyError of the format call. -/
def get_task_name_from_config (cfg : Dict) : Except PyErr String :=
  if alHasKey cfg "dataset_name" then
    match alGet cfg "dataset_path", alGet cfg "dataset_name" with
    | some dp, some dn => Except.ok (pyStr dp ++ "_" ++ pyStr dn)
    | _, _ => Except.error (PyErr.keyError "dataset_path")
  else
    match alGet cfg "dataset_path" with
    | some dp => Except.ok (pyStr dp)
    | none => Except.error (PyErr.keyError "dataset_path")

/-- Modelled from the spec: the prompt subsystem contract
`load_prompt_list(use_prompt, dataset_name, subset_name, yaml_path)` returns a
sequence of variation identifiers; the subsystem is out of scope and enters
the embedding as an oracle parameter. -/
abbrev PromptOracle := Val → Val → Option Val → String → List String

/-- Occurrence of a character sequence inside another (kernel-computable
worker of the substring test). -/
def subOccurs (needle : List Char) : List Char → Bool
  | [] => needle.isEmpty
  | c :: rest => needle.isPrefixOf (c :: rest) || subOccurs needle rest

/-- Substring test (`needle in hay` for Python strings). -/
def strContains (hay needle : String) : Bool :=
  subOccurs needle.data hay.data

/-- Suffix test (`s.endswith(suffix)`). -/
def strEndsWith (s sfx : String) : Bool :=
  List.isSuffixOf sfx.data s.data

/-- Split of a character sequence at a separator character, Python
`str.split` style (an empty input yields one empty component). -/
def splitOnChar (sep : Char) : List Char → List (List Char)
  | [] => [[]]
  | c :: rest =>
      let r := splitOnChar sep rest
      if c = sep then [] :: r
      else
        match r with
        | [] => [[c]]
        | h :: t => (c :: h) :: t

/-- Join of character sequences with a separator character. -/
def joinChar (sep : Char) : List (List Char) → List Char
  | [] => []
  | [x] => x
  | x :: y :: t => x ++ sep :: joinChar sep (y :: t)

/-- Last component of a slash-separated path (`s.split("/")[-1]`). -/
def lastPathComponent (s : String) : String :=
  String.mk ((splitOnChar '/' s.data).getLastD [])

/-- Short name of a prompt variation as the source computes it: for an
identifier mentioning ".yaml" the last path component — the extension is kept
— and otherwise the identifier itself. -/
def promptShortName (pv : String) : String :=
  if strContains pv ".yaml" then lastPathComponent pv else pv

/-- Directory part of a path (`os.path.dirname`). -/
def dirname (p : String) : String :=
  String.mk (joinChar '/' ((splitOnChar '/' p.data).dropLast))

/-- Base name of a prompt-expanded task: the task field when present (a
non-string task field fails the string join), otherwise the derived name. -/
def promptBaseName (cfg : Dict) : Except PyErr String :=
  match alGet cfg "task" with
  | some (Val.s t) => Except.ok t
  | some _ => Except.error PyErr.typeError
  | none => get_task_name_from_config cfg

/-- Expanded config for one prompt variation: the original record merged with
the pinned use_prompt, the joined task name and the forced output_type, in
that order. -/
def mkPromptVariant (cfg : Dict) (base pv : String) : Dict :=
  ((cfg ++ [("use_prompt", Val.s pv)])
      ++ [("task", Val.s (base ++ "_" ++ promptShortName pv))])
    ++ [("output_type", Val.s "generate_until")]

/-- Embedding of `check_prompt_config`: with a use_prompt selector, one config
per variation fetched from the prompt subsystem; without one, the unmodified
config as a singleton. -/
def check_prompt_config (lp : PromptOracle) (cfg : Dict) (yamlPath : String) :
    Except PyErr (List Dict) :=
  if alHasKey cfg "use_prompt" then
    match alGet cfg "use_prompt", alGet cfg "dataset_path" with
    | some up, some dp =>
        (lp up dp (alGet cfg "dataset_name") yamlPath).mapM
          (fun pv => (promptBaseName cfg).map (fun base => mkPromptVariant cfg base pv))
    | some _, none => Except.error (PyErr.keyError "dataset_path")
    | none, _ => Except.error (PyErr.keyError "use_prompt")
  else Except.ok [cfg]

/-- Modelled from the spec: `utils.load_yaml_config` (YAML parsing primitive,
out of scope) resolves a raw inline record against a file path; with no
include directives it returns the record unchanged. -/
def load_yaml_config (_yamlPath : String) (d : Dict) : Dict := d

/-- Base-config fetch for one inline member record of a group definition: the
named task must be in the namespace set, its registry value is unwrapped from
a possible tuple, and a present class yields its CONFIG as merge base plus the
synthesized group-task name. -/
def rcgFetchBase (st : Registries) (d : Dict) (g : String) :
    Except PyErr (Dict × Dict) :=
  match alGet d "task" with
  | some (Val.s tn) =>
      if tn ∈ st.allTasks then
        match alGet st.taskRegistry tn with
        | none => Except.error (PyErr.keyError tn)
        | some rv =>
            match (match rv with | RegVal.cls o => some o | RegVal.tup o => o) with
            | some o => Except.ok (o.config, [("task", Val.s (g ++ "_" ++ tn))])
            | none => Except.ok ([], [])
      else Except.ok ([], [])
  | some _ => Except.error PyErr.typeError
  | none => Except.ok ([], [])

/-- Registration of the prompt-expanded variants of one merged member config;
a raise inside `register_configurable_task` escalates with the state reached. -/
def registerConfigList (cfgs : List Dict) (st : Registries) :
    Registries × Option PyErr :=
  match cfgs with
  | [] => (st, none)
  | c :: rest =>
      match register_configurable_task c st with
      | (st1, none) => registerConfigList rest st1
      | (st1, some e) => (st1, some e)

/-- Processing of the inline member records of a group definition: fetch the
base, merge as base then override then group then synthesized task name,
expand prompt variations, register every variant. -/
def rcgProcessMembers (lp : PromptOracle) (g yamlPath : String)
    (ds : List Dict) (st : Registries) : Registries × Option PyErr :=
  match ds with
  | [] => (st, none)
  | d :: rest =>
      match rcgFetchBase st d g with
      | Except.error e => (st, some e)
      | Except.ok bt =>
          let merged := ((bt.1 ++ load_yaml_config yamlPath d) ++ [("group", Val.s g)]) ++ bt.2
          match check_prompt_config lp merged (dirname yamlPath) with
          | Except.error e => (st, some e)
          | Except.ok vcs =>
              match registerConfigList vcs st with
              | (st1, none) => rcgProcessMembers lp g yamlPath rest st1
              | (st1, some e) => (st1, some e)

/-- Wildcard matcher with explicit fuel; the fuel only provides structural
termination and the amount used below always suffices. -/
def globFuel : Nat → List Char → List Char → Bool
  | 0, _, _ => false
  | _ + 1, [], ns => ns.isEmpty
  | fuel + 1, p :: ps, ns =>
      if p = '*' then
        globFuel fuel ps ns ||
          (match ns with
           | [] => false
           | _ :: ns2 => globFuel fuel (p :: ps) ns2)
      else
        match ns with
        | [] => false
        | n :: ns2 => p == n && globFuel fuel ps ns2

/-- Modelled from the spec: `utils.pattern_match` resolves fnmatch-style
wildcard patterns against the namespace set; the Python original collects
matches into a set, rendered here in deterministic pattern-major order. -/
def pattern_match (patterns names : List String) : List String :=
  patterns.foldl
    (fun acc p =>
      acc ++ ((names.filter
          (fun n => globFuel (p.length + n.length + 1) p.data n.data)).filter
        (fun n => !(acc.contains n))))
    []

/-- Linking of the bare-name members: each matched name present in either
registry is appended to the group membership; the membership list is created
and the group name added to the namespace set on first insert. -/
def rcgLinkNames (g : String) (names : List String) (st : Registries) : Registries :=
  names.foldl
    (fun acc t =>
      if alHasKey acc.taskRegistry t || alHasKey acc.groupRegistry t then
        match alGet acc.groupRegistry g with
        | some ms => { acc with groupRegistry := alInsert acc.groupRegistry g (ms ++ [t]) }
        | none => { acc with groupRegistry := alInsert acc.groupRegistry g [t],
                             allTasks := addName acc.allTasks g }
      else acc)
    st

/-- Embedding of `register_configurable_group`; the walker calls it only for
configs whose task field is a sequence, and the group field of such
definitions is a plain name. -/
def register_configurable_group (lp : PromptOracle) (cfg : Dict)
    (yamlPath : String) (st : Registries) : Registries × Option PyErr :=
  match alGet cfg "group" with
  | none => (st, some (PyErr.keyError "group"))
  | some (Val.s g) =>
      match alGet cfg "task" with
      | none => (st, some (PyErr.keyError "task"))
      | some (Val.vlist l) =>
          let members := l.toList
          let configList := members.filterMap (fun v => match v with
            | Val.vdict kv => some kv.toDict
            | _ => none)
          let taskList := members.filterMap (fun v => match v with
            | Val.s sname => some sname
            | _ => none)
          match rcgProcessMembers lp g yamlPath configList st with
          | (st1, some e) => (st1, some e)
          | (st1, none) =>
              (rcgLinkNames g (pattern_match taskList st1.allTasks) st1, none)
      | some _ => (st, some PyErr.typeError)
  | some _ => (st, some PyErr.typeError)

/-- Outcome of loading one definition file: a parsed record, a load failure of
the missing-dependency class (ImportError, ModuleNotFoundError), or any other
load failure. -/
inductive FileLoad where
  | parsed : Dict → FileLoad
  | depFailed : String → FileLoad
  | loadFailed : String → FileLoad
deriving DecidableEq

/-- One file of the definition-directory walk: its path and what loading it
produces. -/
structure FileItem where
  path : String
  load : FileLoad
deriving DecidableEq

/-- Registration loop over the prompt-expanded configs of one file: pass 1
(registerTask true) registers a config only when its task field is a scalar
string, pass 2 only when it is a sequence. -/
def processConfigs (lp : PromptOracle) (registerTask : Bool) (yamlPath : String)
    (cfgs : List Dict) (st : Registries) : Registries × Option PyErr :=
  match cfgs with
  | [] => (st, none)
  | c :: rest =>
      let step : Registries × Option PyErr :=
        if registerTask then
          match alGet c "task" with
          | some (Val.s _) => register_configurable_task c st
          | some _ => (st, none)
          | none => (st, some (PyErr.keyError "task"))
        else
          match alGet c "task" with
          | some (Val.vlist _) => register_configurable_group lp c yamlPath st
          | some _ => (st, none)
          | none => (st, some (PyErr.keyError "task"))
      match step with
      | (st1, none) => processConfigs lp registerTask yamlPath rest st1
      | (st1, some e) => (st1, some e)

/-- Body of the per-file try block of `include_task_folder`: load, skip
taskless configs, expand prompt variations, then register; any error is
returned together with the state reached before the raise. -/
def processFile (lp : PromptOracle) (registerTask : Bool) (f : FileItem)
    (st : Registries) : Registries × Option PyErr :=
  match f.load with
  | FileLoad.depFailed m => (st, some (PyErr.importError m))
  | FileLoad.loadFailed m => (st, some (PyErr.otherError m))
  | FileLoad.parsed cfg =>
      if alHasKey cfg "task" then
        match check_prompt_config lp cfg (dirname f.path) with
        | Except.error e => (st, some e)
        | Except.ok cfgs => processConfigs lp registerTask f.path cfgs st
      else (st, none)

/-- Test for the missing-dependency exception class caught first by the
walker. -/
def isDepErr : PyErr → Bool
  | PyErr.importError _ => true
  | _ => false

/-- One fold step of the walk: non-yaml files are skipped; an error from the
file body is caught — a dependency failure sets the aggregate flag, every
other failure is only logged — and the walk continues either way. -/
def itfStep (lp : PromptOracle) (registerTask : Bool)
    (acc : Registries × Bool) (f : FileItem) : Registries × Bool :=
  if strEndsWith f.path ".yaml" then
    match processFile lp registerTask f acc.1 with
    | (st1, none) => (st1, acc.2)
    | (st1, some e) => (st1, acc.2 || isDepErr e)
  else acc

/-- Walk continuation from an arbitrary accumulated state. -/
def itfGo (lp : PromptOracle) (registerTask : Bool) (files : List FileItem)
    (acc : Registries × Bool) : Registries × Bool :=
  files.foldl (itfStep lp registerTask) acc

/-- Embedding of `include_task_folder`: the whole directory walk; its result
type has no error channel — every per-file failure is consumed inside the
step, and the Bool is the aggregate missing-dependency flag. -/
def include_task_folder (lp : PromptOracle) (files : List FileItem)
    (registerTask : Bool) (st : Registries) : Registries × Bool :=
  itfGo lp registerTask files (st, false)

/-- Task instance values produced by resolution: an instance built by a
registered factory with a call config, an ad hoc ConfigurableTask built from
an inline record, or a caller-supplied live object. -/
inductive TaskInstance where
  | fromFactory : PyObj → Dict → TaskInstance
  | adhocTask : Dict → TaskInstance
  | liveTask : PyObj → TaskInstance
deriving DecidableEq

/-- ResolvedTaskSet values: a bare task instance, or the pair written for a
name reached through group expansion — `(group, v)` is `pairSome` and
`(group, None)` is `pairNone`. -/
inductive ResVal where
  | rinst : TaskInstance → ResVal
  | pairSome : String → ResVal → ResVal
  | pairNone : String → ResVal
deriving DecidableEq

/-- Modelled from the spec: the cache backend `lm_eval.caching.cache` is not
under src/; it is a key-value store with the slots this module uses — the
per-name `raw-` slots and the three registry snapshots — and a miss loads an
empty value. -/
structure Cache where
  raw : AList (AList ResVal)
  taskRegSnap : Option (AList RegVal)
  groupRegSnap : Option (AList (List String))
  allTasksSnap : Option (List String)
deriving DecidableEq

/-- Cache with nothing stored. -/
def emptyCache : Cache := ⟨[], none, none, none⟩

/-- Truthiness of a loaded registry snapshot: an absent key or an empty
collection is falsy. -/
def snapTruthy {α : Type} : Option (List α) → Bool
  | some l => !l.isEmpty
  | none => false

/-- Embedding of `include_path`: restore the registries from a usable cache
and return without walking; otherwise run the two walk passes — tasks first,
then groups — over the same file set and optionally snapshot the registries
back into the cache. -/
def include_path (lp : PromptOracle) (files : List FileItem)
    (useCache rewriteCache : Bool) (st : Registries) (c : Cache) :
    Registries × Cache :=
  let cachesExist := snapTruthy c.taskRegSnap && snapTruthy c.groupRegSnap
      && snapTruthy c.allTasksSnap
  if !rewriteCache && cachesExist then
    let tr := (c.taskRegSnap.getD []).foldl
      (fun d (p : String × RegVal) => alInsert d p.1 p.2) st.taskRegistry
    let gr := (c.groupRegSnap.getD []).foldl
      (fun d (p : String × List String) => alInsert d p.1 p.2) st.groupRegistry
    let at3 := (c.allTasksSnap.getD []).foldl addName st.allTasks
    ({ st with taskRegistry := tr, groupRegistry := gr, allTasks := at3 }, c)
  else
    let pass1 := include_task_folder lp files true st
    let pass2 := include_task_folder lp files false pass1.1
    let c2 :=
      if useCache && (!cachesExist || rewriteCache) then
        { c with taskRegSnap := some pass2.1.taskRegistry,
                 groupRegSnap := some pass2.1.groupRegistry,
                 allTasksSnap := some pass2.1.allTasks }
      else c
    (pass2.1, c2)

/-- Embedding of `get_task`: registry lookup then factory call; a missing name
escalates as KeyError, and a tuple-valued registry entry is not callable. -/
def get_task (st : Registries) (taskName : String) (cfg : Dict) :
    Except PyErr TaskInstance :=
  match alGet st.taskRegistry taskName with
  | none => Except.error (PyErr.keyError taskName)
  | some (RegVal.cls o) => Except.ok (TaskInstance.fromFactory o cfg)
  | some (RegVal.tup _) => Except.error PyErr.typeError

/-- Embedding of `get_task_name_from_object`: first an identity match against
the registry values, then the author-declared attribute, then the type name. -/
def get_task_name_from_object (st : Registries) (o : PyObj) : String :=
  match st.taskRegistry.find? (fun p => match p.2 with
    | RegVal.cls q => q.oid == o.oid
    | RegVal.tup _ => false) with
  | some p => p.1
  | none => match o.evalHarnessName with
    | some n => n
    | none => o.typeName

/-- Request elements of `get_task_dict`: a plain name, an inline config record
(the element list is threaded back through resolution, so the in-place update
of a record is observable to the caller), or a live task object. -/
inductive ReqElem where
  | name : String → ReqElem
  | conf : Dict → ReqElem
  | obj : PyObj → ReqElem
deriving DecidableEq

/-- Result of one `get_task_dict` call: the name → value mapping, the cache
state after its reads and writes, and the caller-visible request elements. -/
structure GtdOut where
  res : AList ResVal
  cache : Cache
  elems : List ReqElem
deriving DecidableEq

/-- Accumulators of the element loop of `get_task_dict`: the three provenance
mappings, the cache, and the threaded-back elements. -/
structure ElemsOut where
  accR : AList ResVal
  accC : AList ResVal
  accO : AList ResVal
  cache : Cache
  elems : List ReqElem
deriving DecidableEq

/-- Miss path of the plain-name branch: instantiate through the registry and
persist the whole accumulated registry mapping under the raw slot of the
name. -/
def gtdPlainTask (st : Registries) (kwargs : Dict) (s : String)
    (accR : AList ResVal) (c : Cache) : Except PyErr (AList ResVal × Cache) :=
  match get_task st s kwargs with
  | Except.error e => Except.error e
  | Except.ok i =>
      let accR1 := alInsert accR s (ResVal.rinst i)
      Except.ok (accR1, { c with raw := alInsert c.raw s accR1 })

/-- Member loop of the group branch: members already accumulated are skipped;
otherwise the member is resolved recursively through `rcall` and recorded as
`(group, instance)` when it resolved under its own name, and as
`(group, None)` merged with the recursive result otherwise. -/
def gtdMembersAux (g : String) (rcall : Cache → String → Except PyErr GtdOut) :
    List String → AList ResVal → Cache → Except PyErr (AList ResVal × Cache)
  | [], acc, c => Except.ok (acc, c)
  | m :: ms, acc, c =>
      if alHasKey acc m then gtdMembersAux g rcall ms acc c
      else
        match rcall c m with
        | Except.error e => Except.error e
        | Except.ok out =>
            let td := match alGet out.res m with
              | some v => [(m, ResVal.pairSome g v)]
              | none => alMerge [(m, ResVal.pairNone g)] out.res
            gtdMembersAux g rcall ms (alMerge acc td) out.cache

/-- Element loop of `get_task_dict`: group names expand member-wise, other
plain names go through the raw cache slot or the registry factory, inline
records are updated in place with the overrides and instantiated directly,
and live objects are inserted under their resolved display name. -/
def gtdElemsAux (st : Registries) (rcall : Cache → String → Except PyErr GtdOut)
    (kwargs : Dict) :
    List ReqElem → AList ResVal → AList ResVal → AList ResVal → Cache →
    Except PyErr ElemsOut
  | [], accR, accC, accO, c => Except.ok ⟨accR, accC, accO, c, []⟩
  | e :: rest, accR, accC, accO, c =>
      match e with
      | ReqElem.name sn =>
          match alGet st.groupRegistry sn with
          | some members =>
              match gtdMembersAux sn rcall members accR c with
              | Except.error err => Except.error err
              | Except.ok rc =>
                  (gtdElemsAux st rcall kwargs rest rc.1 accC accO rc.2).map
                    (fun out => { out with elems := e :: out.elems })
          | none =>
              if alHasKey accR sn then
                (gtdElemsAux st rcall kwargs rest accR accC accO c).map
                  (fun out => { out with elems := e :: out.elems })
              else
                match (match alGet c.raw sn with
                       | some m => if m.isEmpty then none else some m
                       | none => none) with
                | some m =>
                    (gtdElemsAux st rcall kwargs rest (alMerge accR m) accC accO c).map
                      (fun out => { out with elems := e :: out.elems })
                | none =>
                    match gtdPlainTask st kwargs sn accR c with
                    | Except.error err => Except.error err
                    | Except.ok rc =>
                        (gtdElemsAux st rcall kwargs rest rc.1 accC accO rc.2).map
                          (fun out => { out with elems := e :: out.elems })
      | ReqElem.conf d =>
          let d1 := alMerge d kwargs
          match get_task_name_from_config d1 with
          | Except.error err => Except.error err
          | Except.ok nm =>
              (gtdElemsAux st rcall kwargs rest accR
                  (alInsert accC nm (ResVal.rinst (TaskInstance.adhocTask d1))) accO c).map
                (fun out => { out with elems := ReqElem.conf d1 :: out.elems })
      | ReqElem.obj o =>
          (gtdElemsAux st rcall kwargs rest accR accC
              (alInsert accO (get_task_name_from_object st o)
                (ResVal.rinst (TaskInstance.liveTask o))) c).map
            (fun out => { out with elems := e :: out.elems })

/-- Embedding of `get_task_dict`; the fuel bounds the recursion depth of the
Python original, which recurses through group members with no keyword
overrides. The final assertion rejects a registry-resolved name set that
meets the object-resolved name set. -/
def get_task_dict (st : Registries) :
    Nat → Cache → List ReqElem → Dict → Except PyErr GtdOut
  | 0, _, _, _ => Except.error PyErr.fuelExhausted
  | n + 1, c, elems, kwargs =>
      match gtdElemsAux st (fun c1 sn => get_task_dict st n c1 [ReqElem.name sn] [])
          kwargs elems [] [] [] c with
      | Except.error e => Except.error e
      | Except.ok out =>
          if alDisjoint out.accR out.accO then
            Except.ok ⟨alMerge (alMerge out.accR out.accC) out.accO, out.cache, out.elems⟩
          else Except.error PyErr.assertionError

/-! Lemmas about the dict model. -/

theorem alGet_append {α : Type} (a b : AList α) (k : String) :
    alGet (a ++ b) k = (alGet b k).or (alGet a k) := by
  unfold alGet
  rw [List.reverse_append, List.find?_append]
  cases h : b.reverse.find? (fun p => p.1 == k) <;> simp [Option.or]

theorem alGet_singleton_eq {α : Type} (k : String) (v : α) :
    alGet [(k, v)] k = some v := by
  simp [alGet, List.find?]

theorem alGet_singleton_ne {α : Type} (k k2 : String) (v : α) (h : (k == k2) = false) :
    alGet [(k, v)] k2 = none := by
  simp [alGet, List.find?, h]

theorem alHasKey_append {α : Type} (a b : AList α) (k : String) :
    alHasKey (a ++ b) k = (alHasKey a k || alHasKey b k) := by
  simp [alHasKey, List.any_append]

theorem alHasKey_singleton_self {α : Type} (k : String) (v : α) :
    alHasKey [(k, v)] k = true := by
  simp [alHasKey]

theorem alHasKey_insert_self {α : Type} (d : AList α) (k : String) (v : α) :
    alHasKey (alInsert d k v) k = true := by
  simp [alInsert, alHasKey_append, alHasKey_singleton_self]

theorem find?_pred {α : Type} (pr : α → Bool) (l : List α) (a : α)
    (h : List.find? pr l = some a) : pr a = true := by
  induction l with
  | nil => simp [List.find?] at h
  | cons x t ih =>
      cases hx : pr x with
      | true =>
          rw [List.find?_cons_of_pos _ hx] at h
          cases h
          exact hx
      | false =>
          rw [List.find?_cons_of_neg _ (by simp [hx])] at h
          exact ih h

theorem alHasKey_eq_isSome {α : Type} (d : AList α) (k : String) :
    alHasKey d k = (alGet d k).isSome := by
  unfold alHasKey alGet
  rcases h : List.find? (fun p => p.1 == k) d.reverse with _ | q
  · rw [h]
    rw [List.find?_eq_none] at h
    simp only [Option.map_none', Option.isSome_none, List.any_eq_false]
    intro x hx
    simpa using h x (List.mem_reverse.mpr hx)
  · rw [h]
    have hs : d.any (fun p => p.1 == k) = true := by
      rw [List.any_eq_true]
      exact ⟨q, List.mem_reverse.mp (List.mem_of_find?_eq_some h),
        find?_pred (fun p => p.1 == k) d.reverse q h⟩
    simp [hs]

theorem addName_self_mem (l : List String) (n : String) : n ∈ addName l n := by
  unfold addName
  split
  · assumption
  · simp

theorem mapM_loop_pure {α β : Type} (f : α → β) (l : List α) (acc : List β) :
    List.mapM.loop (fun a => (Except.ok (f a) : Except PyErr β)) l acc =
      Except.ok (acc.reverse ++ l.map f) := by
  induction l generalizing acc with
  | nil =>
      simp only [List.mapM.loop, List.map_nil, List.append_nil]
      rfl
  | cons a t ih =>
      simp only [List.mapM.loop, List.map_cons]
      show List.mapM.loop _ t (f a :: acc) = _
      rw [ih]
      simp

theorem mapM_pure_ok {α β : Type} (f : α → β) (l : List α) :
    l.mapM (fun a => (Except.ok (f a) : Except PyErr β)) = Except.ok (l.map f) := by
  show List.mapM.loop _ _ [] = _
  rw [mapM_loop_pure]
  rfl

/-! Claim theorems. -/

/-- C6: registering a configurable task from a config whose task field and
group field both hold the same literal string always fails with the
group/task collision ValueError, for every string value. -/
theorem claim_C6_group_task_collision (st : Registries) (cfg : Dict) (s : String)
    (ht : alGet cfg "task" = some (Val.s s))
    (hg : alGet cfg "group" = some (Val.s s)) :
    (register_configurable_task cfg st).2 =
      some (PyErr.valueError "task and group name cannot be the same") := by
  unfold register_configurable_task
  simp [ht, hg]

/-- Witness for C6 at a concrete config and empty registry state. -/
theorem claim_C6_witness :
    (register_configurable_task [("task", Val.s "x"), ("group", Val.s "x")]
        ⟨[], [], [], 0⟩).2 =
      some (PyErr.valueError "task and group name cannot be the same") :=
  claim_C6_group_task_collision ⟨[], [], [], 0⟩
    [("task", Val.s "x"), ("group", Val.s "x")] "x" (by decide) (by decide)

/-- C9: on the collision error path the task has already been registered —
the returned state has the task name in the task registry and in the
namespace set, so registration is not atomic on this error path. -/
theorem claim_C9_collision_path_already_registered (st : Registries) (cfg : Dict)
    (s : String)
    (ht : alGet cfg "task" = some (Val.s s))
    (hg : alGet cfg "group" = some (Val.s s)) :
    (register_configurable_task cfg st).2 =
        some (PyErr.valueError "task and group name cannot be the same") ∧
    alHasKey (register_configurable_task cfg st).1.taskRegistry s = true ∧
    s ∈ (register_configurable_task cfg st).1.allTasks := by
  unfold register_configurable_task
  simp [ht, hg, registerTaskReg, alHasKey_insert_self, addName_self_mem]

/-- Witness for C9 at a concrete config and empty registry state. -/
theorem claim_C9_witness :
    (register_configurable_task [("task", Val.s "x"), ("group", Val.s "x")]
        ⟨[], [], [], 7⟩).2 =
        some (PyErr.valueError "task and group name cannot be the same") ∧
    alHasKey (register_configurable_task [("task", Val.s "x"), ("group", Val.s "x")]
        ⟨[], [], [], 7⟩).1.taskRegistry "x" = true ∧
    "x" ∈ (register_configurable_task [("task", Val.s "x"), ("group", Val.s "x")]
        ⟨[], [], [], 7⟩).1.allTasks :=
  claim_C9_collision_path_already_registered ⟨[], [], [], 7⟩
    [("task", Val.s "x"), ("group", Val.s "x")] "x" (by decide) (by decide)

/-- C4 counterexample: for the file-backed variation "promptsource/p1.yaml"
the code derives the task name "t_p1.yaml" — the path is stripped but the
".yaml" extension is kept — so the claimed path-and-extension stripping does
not hold as stated. -/
theorem claim_C4_counterexample :
    (check_prompt_config (fun _ _ _ _ => ["promptsource/p1.yaml"])
        [("task", Val.s "t"), ("dataset_path", Val.s "d"), ("use_prompt", Val.s "sel")]
        "y").map (fun l => l.map (fun c => alGet c "task")) =
      Except.ok [some (Val.s "t_p1.yaml")] ∧
    ("t_p1.yaml" : String) ≠ "t_p1" :=
  ⟨by decide, by decide⟩

/-- C4 (amended): with a use_prompt selector present, expansion returns
exactly one config per variation delivered by the prompt subsystem, each with
use_prompt pinned to its variation, output_type forced to "generate_until",
and the task name joined from the base-or-derived name and the variation
short name — where a file-backed variation keeps only its last path component
with the extension retained, and an inline name is used as-is; without a
selector, the unmodified config is returned as a singleton. -/
theorem claim_C4_prompt_expansion (lp : PromptOracle) (cfg : Dict)
    (yamlPath : String) (up dp : Val) (base : String)
    (hup : alGet cfg "use_prompt" = some up)
    (hdp : alGet cfg "dataset_path" = some dp)
    (hbase : promptBaseName cfg = Except.ok base) :
    check_prompt_config lp cfg yamlPath =
      Except.ok ((lp up dp (alGet cfg "dataset_name") yamlPath).map
        (fun pv => mkPromptVariant cfg base pv)) ∧
    (∀ cs, check_prompt_config lp cfg yamlPath = Except.ok cs →
      cs.length = (lp up dp (alGet cfg "dataset_name") yamlPath).length) ∧
    (∀ pv,
      alGet (mkPromptVariant cfg base pv) "use_prompt" = some (Val.s pv) ∧
      alGet (mkPromptVariant cfg base pv) "output_type" =
        some (Val.s "generate_until") ∧
      alGet (mkPromptVariant cfg base pv) "task" =
        some (Val.s (base ++ "_" ++ promptShortName pv)) ∧
      (strContains pv ".yaml" = true → promptShortName pv = lastPathComponent pv) ∧
      (strContains pv ".yaml" = false → promptShortName pv = pv)) ∧
    (∀ cfg2 : Dict, alHasKey cfg2 "use_prompt" = false →
      check_prompt_config lp cfg2 yamlPath = Except.ok [cfg2]) := by
  have hk : alHasKey cfg "use_prompt" = true := by
    rw [alHasKey_eq_isSome, hup]
    rfl
  have hmain : check_prompt_config lp cfg yamlPath =
      Except.ok ((lp up dp (alGet cfg "dataset_name") yamlPath).map
        (fun pv => mkPromptVariant cfg base pv)) := by
    unfold check_prompt_config
    rw [hk]
    simp only [hup, hdp, hbase, if_true]
    simp only [Except.map]
    exact mapM_pure_ok _ _
  refine ⟨hmain, ?_, ?_, ?_⟩
  · intro cs hcs
    rw [hmain] at hcs
    cases hcs
    exact (List.length_map _ _).symm ▸ rfl
  · intro pv
    refine ⟨?_, ?_, ?_, ?_, ?_⟩
    · simp [mkPromptVariant, alGet_append, alGet, List.find?, Option.or]
    · simp [mkPromptVariant, alGet_append, alGet, List.find?, Option.or]
    · simp [mkPromptVariant, alGet_append, alGet, List.find?, Option.or]
    · intro hc
      simp [promptShortName, hc]
    · intro hc
      simp [promptShortName, hc]
  · intro cfg2 h2
    unfold check_prompt_config
    rw [h2]
    rfl

/-- Witness for C4 at a concrete oracle delivering two variations. -/
theorem claim_C4_witness :
    check_prompt_config (fun _ _ _ _ => ["folder/p1.yaml", "inline_p2"])
        [("task", Val.s "t"), ("dataset_path", Val.s "d"), ("use_prompt", Val.s "sel")]
        "y" =
      Except.ok
        ((["folder/p1.yaml", "inline_p2"]).map
          (fun pv => mkPromptVariant
            [("task", Val.s "t"), ("dataset_path", Val.s "d"), ("use_prompt", Val.s "sel")]
            "t" pv)) :=
  (claim_C4_prompt_expansion (fun _ _ _ _ => ["folder/p1.yaml", "inline_p2"])
    [("task", Val.s "t"), ("dataset_path", Val.s "d"), ("use_prompt", Val.s "sel")]
    "y" (Val.s "sel") (Val.s "d") "t" (by decide) (by decide) (by decide)).1

theorem rcgProcessMembers_cons (lp : PromptOracle) (g yamlPath : String)
    (d : Dict) (rest : List Dict) (st : Registries) :
    rcgProcessMembers lp g yamlPath (d :: rest) st =
      (match rcgFetchBase st d g with
       | Except.error e => (st, some e)
       | Except.ok bt =>
           match check_prompt_config lp
               (((bt.1 ++ load_yaml_config yamlPath d) ++ [("group", Val.s g)]) ++ bt.2)
               (dirname yamlPath) with
           | Except.error e => (st, some e)
           | Except.ok vcs =>
               match registerConfigList vcs st with
               | (st1, none) => rcgProcessMembers lp g yamlPath rest st1
               | (st1, some e) => (st1, some e)) := rfl

/-- C3: for an inline member override naming a task present in the registry
(and hence in the namespace set), the base fetch returns that task's stored
config together with the synthesized "group_task" name, the merged config has
the synthesized task name and the group name forced last so that neither base
nor override can clobber them, every other field set by the override wins
over the base, and the member processing runs the merged config through
prompt expansion and registers each resulting variant. -/
theorem claim_C3_group_override_merge (lp : PromptOracle) (st : Registries)
    (g yamlPath tn : String) (d : Dict) (baseObj : PyObj) (rest : List Dict)
    (ht : alGet d "task" = some (Val.s tn))
    (hin : tn ∈ st.allTasks)
    (hreg : alGet st.taskRegistry tn = some (RegVal.cls baseObj)) :
    rcgFetchBase st d g =
      Except.ok (baseObj.config, [("task", Val.s (g ++ "_" ++ tn))]) ∧
    alGet (((baseObj.config ++ load_yaml_config yamlPath d)
        ++ [("group", Val.s g)]) ++ [("task", Val.s (g ++ "_" ++ tn))]) "task" =
      some (Val.s (g ++ "_" ++ tn)) ∧
    alGet (((baseObj.config ++ load_yaml_config yamlPath d)
        ++ [("group", Val.s g)]) ++ [("task", Val.s (g ++ "_" ++ tn))]) "group" =
      some (Val.s g) ∧
    (∀ k, ("task" == k) = false → ("group" == k) = false →
      alGet (((baseObj.config ++ load_yaml_config yamlPath d)
          ++ [("group", Val.s g)]) ++ [("task", Val.s (g ++ "_" ++ tn))]) k =
        (alGet d k).or (alGet baseObj.config k)) ∧
    rcgProcessMembers lp g yamlPath (d :: rest) st =
      (match check_prompt_config lp (((baseObj.config ++ load_yaml_config yamlPath d)
          ++ [("group", Val.s g)]) ++ [("task", Val.s (g ++ "_" ++ tn))])
          (dirname yamlPath) with
       | Except.error e => (st, some e)
       | Except.ok vcs =>
           match registerConfigList vcs st with
           | (st1, none) => rcgProcessMembers lp g yamlPath rest st1
           | (st1, some e) => (st1, some e)) := by
  have hfb : rcgFetchBase st d g =
      Except.ok (baseObj.config, [("task", Val.s (g ++ "_" ++ tn))]) := by
    unfold rcgFetchBase
    rw [ht]
    simp [hin, hreg]
  refine ⟨hfb, ?_, ?_, ?_, ?_⟩
  · simp [alGet_append, alGet, List.find?, Option.or]
  · simp [alGet_append, alGet, List.find?, Option.or]
  · intro k hk1 hk2
    rw [alGet_append, alGet_append, alGet_append,
      alGet_singleton_ne _ _ _ hk1, alGet_singleton_ne _ _ _ hk2]
    rfl
  · rw [rcgProcessMembers_cons, hfb]

/-- Oracle returning no prompt variations (tasks without selectors never
consult it). -/
def lpNone : PromptOracle := fun _ _ _ _ => []

/-- Example class objects and registry states used by concrete runs. -/
def exObjA : PyObj := ⟨0, [("task", Val.s "alpha"), ("dataset_path", Val.s "da")], none, "alphaConfigurableTask"⟩

def exObjB : PyObj := ⟨1, [("task", Val.s "beta"), ("dataset_path", Val.s "db")], none, "betaConfigurableTask"⟩

def exSt1 : Registries :=
  ⟨[("alpha", RegVal.cls exObjA), ("beta", RegVal.cls exObjB)],
   [("mygroup", ["alpha", "beta"])], ["alpha", "beta", "mygroup"], 2⟩

def exSt5 : Registries :=
  ⟨[("a", RegVal.cls exObjA), ("b", RegVal.cls exObjB)], [], ["a", "b"], 2⟩

def exObjT : PyObj := ⟨5, [], none, "T"⟩

def exLive7 : PyObj := ⟨99, [], some "t", "SomeTask"⟩

def exSt7 : Registries := ⟨[("t", RegVal.cls exObjT)], [], ["t"], 6⟩

/-- Witness for C3 at a concrete registry holding the task "alpha". -/
theorem claim_C3_witness :
    rcgFetchBase exSt1 [("task", Val.s "alpha"), ("num_fewshot", Val.s "5")] "mygroup" =
      Except.ok (exObjA.config, [("task", Val.s "mygroup_alpha")]) :=
  (claim_C3_group_override_merge lpNone exSt1 "mygroup" "dir/g.yaml" "alpha"
    [("task", Val.s "alpha"), ("num_fewshot", Val.s "5")] exObjA []
    (by decide) (by decide) (by decide)).1

/-- C5 counterexample: resolving the two plain tasks "a" then "b" from an
empty cache persists, under the raw slot of "b", the whole accumulated
mapping — two entries, including the key "a" — not a single-entry mapping
holding only "b". -/
theorem claim_C5_counterexample :
    (get_task_dict exSt5 1 emptyCache [ReqElem.name "a", ReqElem.name "b"] []).map
        (fun out => ((alGet out.cache.raw "b").map List.length,
          (alGet out.cache.raw "b").map (fun m => alHasKey m "a"))) =
      Except.ok (some 2, some true) ∧ ("a" : String) ≠ "b" :=
  ⟨by decide, by decide⟩

/-- C5 (amended): for a plain non-group name not yet accumulated, a non-empty
raw-slot hit merges the cached mapping in without instantiation or cache
write; a miss (absent slot or empty cached value) instantiates through the
registry factory with the current config and persists the whole accumulated
registry mapping — equal to the single-entry mapping only when this is the
first registry-resolved name — under the raw slot of the name; a name already
accumulated is skipped. -/
theorem claim_C5_raw_cache_slot (st : Registries)
    (rcall : Cache → String → Except PyErr GtdOut) (kwargs : Dict) (sn : String)
    (rest : List ReqElem) (accR accC accO : AList ResVal) (c : Cache) :
    (∀ m, alGet st.groupRegistry sn = none → alHasKey accR sn = false →
      alGet c.raw sn = some m → m.isEmpty = false →
      gtdElemsAux st rcall kwargs (ReqElem.name sn :: rest) accR accC accO c =
        (gtdElemsAux st rcall kwargs rest (alMerge accR m) accC accO c).map
          (fun out => { out with elems := ReqElem.name sn :: out.elems })) ∧
    (∀ i, alGet st.groupRegistry sn = none → alHasKey accR sn = false →
      (alGet c.raw sn = none ∨ alGet c.raw sn = some []) →
      get_task st sn kwargs = Except.ok i →
      gtdElemsAux st rcall kwargs (ReqElem.name sn :: rest) accR accC accO c =
        (gtdElemsAux st rcall kwargs rest (alInsert accR sn (ResVal.rinst i)) accC accO
            { c with raw := alInsert c.raw sn (alInsert accR sn (ResVal.rinst i)) }).map
          (fun out => { out with elems := ReqElem.name sn :: out.elems })) ∧
    (alGet st.groupRegistry sn = none → alHasKey accR sn = true →
      gtdElemsAux st rcall kwargs (ReqElem.name sn :: rest) accR accC accO c =
        (gtdElemsAux st rcall kwargs rest accR accC accO c).map
          (fun out => { out with elems := ReqElem.name sn :: out.elems })) := by
  refine ⟨?_, ?_, ?_⟩
  · intro m hg hk hcr hne
    simp only [gtdElemsAux, hg, hk, hcr, hne]
    rfl
  · intro i hg hk hcr hti
    rcases hcr with h | h <;>
      simp only [gtdElemsAux, hg, hk, h, gtdPlainTask, hti, List.isEmpty_nil] <;> rfl
  · intro hg hk
    simp only [gtdElemsAux, hg, hk]
    rfl

/-- Witness for C5 at a concrete state: a cache hit for "a" merges the cached
mapping without touching the cache. -/
theorem claim_C5_witness :
    gtdElemsAux exSt5 (fun c _ => Except.ok ⟨[], c, []⟩) [] [ReqElem.name "a"]
        [] [] [] ⟨[("a", [("a", ResVal.pairNone "g0")])], none, none, none⟩ =
      (gtdElemsAux exSt5 (fun c _ => Except.ok ⟨[], c, []⟩) [] []
          (alMerge [] [("a", ResVal.pairNone "g0")]) [] []
          ⟨[("a", [("a", ResVal.pairNone "g0")])], none, none, none⟩).map
        (fun out => { out with elems := ReqElem.name "a" :: out.elems }) :=
  (claim_C5_raw_cache_slot exSt5 (fun c _ => Except.ok ⟨[], c, []⟩) [] "a" [] [] [] []
    ⟨[("a", [("a", ResVal.pairNone "g0")])], none, none, none⟩).1
    [("a", ResVal.pairNone "g0")] (by decide) (by decide) (by decide) (by decide)

/-- C10: the inline-record branch writes the caller overrides into the record
itself — the element handed back to the caller is the merged record, the
ad hoc instance is built from the merged record, and every override parameter
is readable from the merged record. -/
theorem claim_C10_conf_updated_in_place (st : Registries)
    (rcall : Cache → String → Except PyErr GtdOut) (kwargs d : Dict)
    (rest : List ReqElem) (accR accC accO : AList ResVal) (c : Cache) :
    (gtdElemsAux st rcall kwargs (ReqElem.conf d :: rest) accR accC accO c =
      match get_task_name_from_config (alMerge d kwargs) with
      | Except.error err => Except.error err
      | Except.ok nm =>
          (gtdElemsAux st rcall kwargs rest accR
              (alInsert accC nm (ResVal.rinst (TaskInstance.adhocTask (alMerge d kwargs))))
              accO c).map
            (fun out => { out with elems := ReqElem.conf (alMerge d kwargs) :: out.elems })) ∧
    (∀ n c0 out, get_task_dict st (n + 1) c0 [ReqElem.conf d] kwargs = Except.ok out →
      out.elems = [ReqElem.conf (alMerge d kwargs)]) ∧
    (∀ k, alHasKey kwargs k = true → alGet (alMerge d kwargs) k = alGet kwargs k) := by
  refine ⟨rfl, ?_, ?_⟩
  · intro n c0 out h
    simp only [get_task_dict, gtdElemsAux] at h
    rcases hn : get_task_name_from_config (alMerge d kwargs) with e | nm <;>
      rw [hn] at h
    · cases h
    · simp only [Except.map] at h
      cases h
      rfl
  · intro k hk
    rw [alHasKey_eq_isSome] at hk
    rcases hg : alGet kwargs k with _ | v
    · rw [hg] at hk
      cases hk
    · rw [alMerge, alGet_append, hg]
      rfl

/-- Witness for C10: a concrete inline record with one override. -/
theorem claim_C10_witness :
    (∀ out, get_task_dict exSt5 1 emptyCache
        [ReqElem.conf [("dataset_path", Val.s "dp")]] [("num_fewshot", Val.s "5")] =
          Except.ok out →
      out.elems = [ReqElem.conf (alMerge [("dataset_path", Val.s "dp")]
        [("num_fewshot", Val.s "5")])]) ∧
    alGet (alMerge [("dataset_path", Val.s "dp")] [("num_fewshot", Val.s "5")])
        "num_fewshot" = alGet [("num_fewshot", Val.s "5")] "num_fewshot" :=
  ⟨fun out h => (claim_C10_conf_updated_in_place exSt5
      (fun c1 sn => get_task_dict exSt5 0 c1 [ReqElem.name sn] [])
      [("num_fewshot", Val.s "5")] [("dataset_path", Val.s "dp")] [] [] [] []
      emptyCache).2.1 0 emptyCache out h,
   (claim_C10_conf_updated_in_place exSt5
      (fun c1 sn => get_task_dict exSt5 0 c1 [ReqElem.name sn] [])
      [("num_fewshot", Val.s "5")] [("dataset_path", Val.s "dp")] [] [] [] []
      emptyCache).2.2 "num_fewshot" (by decide)⟩

/-- C7: resolution succeeds only when the registry-resolved name set and the
object-resolved name set are disjoint, fails with the assertion error when
they meet, and a concrete request naming the same task once as a plain name
and once as a live instance fails rather than returning a mapping. -/
theorem claim_C7_provenance_disjointness (st : Registries) (n : Nat) (c : Cache)
    (elems : List ReqElem) (kwargs : Dict) :
    (∀ r, gtdElemsAux st (fun c1 sn => get_task_dict st n c1 [ReqElem.name sn] [])
        kwargs elems [] [] [] c = Except.ok r →
      (alDisjoint r.accR r.accO = true →
        get_task_dict st (n + 1) c elems kwargs =
          Except.ok ⟨alMerge (alMerge r.accR r.accC) r.accO, r.cache, r.elems⟩) ∧
      (alDisjoint r.accR r.accO = false →
        get_task_dict st (n + 1) c elems kwargs = Except.error PyErr.assertionError)) ∧
    (∀ out, get_task_dict st (n + 1) c elems kwargs = Except.ok out →
      ∃ r, gtdElemsAux st (fun c1 sn => get_task_dict st n c1 [ReqElem.name sn] [])
          kwargs elems [] [] [] c = Except.ok r ∧
        alDisjoint r.accR r.accO = true) ∧
    get_task_dict exSt7 1 emptyCache [ReqElem.name "t", ReqElem.obj exLive7] [] =
      Except.error PyErr.assertionError := by
  refine ⟨?_, ?_, by decide⟩
  · intro r h
    constructor <;> intro hd <;> simp only [get_task_dict, h, hd] <;> rfl
  · intro out h
    simp only [get_task_dict] at h
    rcases hE : gtdElemsAux st (fun c1 sn => get_task_dict st n c1 [ReqElem.name sn] [])
        kwargs elems [] [] [] c with e | r
    · simp [hE] at h
    · rcases hd : alDisjoint r.accR r.accO with _ | _
      · simp [hE, hd] at h
      · exact ⟨r, by simp [hE], hd⟩

/-- Witness for C7: a successful run with disjoint provenance sets. -/
theorem claim_C7_witness :
    get_task_dict exSt7 1 emptyCache [ReqElem.name "t"] [] =
      Except.ok ⟨alMerge (alMerge [("t", ResVal.rinst (TaskInstance.fromFactory exObjT []))] []) [],
        ⟨[("t", [("t", ResVal.rinst (TaskInstance.fromFactory exObjT []))])], none, none, none⟩,
        [ReqElem.name "t"]⟩ :=
  ((claim_C7_provenance_disjointness exSt7 0 emptyCache [ReqElem.name "t"] []).1
    ⟨[("t", ResVal.rinst (TaskInstance.fromFactory exObjT []))], [], [],
      ⟨[("t", [("t", ResVal.rinst (TaskInstance.fromFactory exObjT []))])], none, none, none⟩,
      [ReqElem.name "t"]⟩ (by decide)).1 (by decide)

/-- C1: a group member already present in the accumulating mapping is skipped
and resolved only once; an unseen member is bound to the pair
`(group, instance)` when the recursive resolution carries an entry under the
member name, and to `(group, None)` merged with the recursive result when it
does not; and the concrete request ["mygroup"] over the registry holding
tasks alpha and beta grouped under mygroup yields exactly the keys alpha and
beta, each bound to `("mygroup", instance)`. -/
theorem claim_C1_group_member_resolution (g : String)
    (rcall : Cache → String → Except PyErr GtdOut) (m : String) (ms : List String)
    (acc : AList ResVal) (c : Cache) :
    (alHasKey acc m = true →
      gtdMembersAux g rcall (m :: ms) acc c = gtdMembersAux g rcall ms acc c) ∧
    (∀ out v, alHasKey acc m = false → rcall c m = Except.ok out →
      alGet out.res m = some v →
      gtdMembersAux g rcall (m :: ms) acc c =
        gtdMembersAux g rcall ms (alMerge acc [(m, ResVal.pairSome g v)]) out.cache ∧
      alGet (alMerge acc [(m, ResVal.pairSome g v)]) m =
        some (ResVal.pairSome g v)) ∧
    (∀ out, alHasKey acc m = false → rcall c m = Except.ok out →
      alGet out.res m = none →
      gtdMembersAux g rcall (m :: ms) acc c =
        gtdMembersAux g rcall ms
          (alMerge acc (alMerge [(m, ResVal.pairNone g)] out.res)) out.cache ∧
      alGet (alMerge acc (alMerge [(m, ResVal.pairNone g)] out.res)) m =
        some (ResVal.pairNone g)) ∧
    get_task_dict exSt1 2 emptyCache [ReqElem.name "mygroup"] [] =
      Except.ok
        ⟨[("alpha", ResVal.pairSome "mygroup"
            (ResVal.rinst (TaskInstance.fromFactory exObjA []))),
          ("beta", ResVal.pairSome "mygroup"
            (ResVal.rinst (TaskInstance.fromFactory exObjB [])))],
         ⟨[("alpha", [("alpha", ResVal.rinst (TaskInstance.fromFactory exObjA []))]),
           ("beta", [("beta", ResVal.rinst (TaskInstance.fromFactory exObjB []))])],
          none, none, none⟩,
         [ReqElem.name "mygroup"]⟩ := by
  refine ⟨?_, ?_, ?_, by decide⟩
  · intro h
    simp only [gtdMembersAux, h]
    rfl
  · intro out v h1 h2 h3
    constructor
    · simp only [gtdMembersAux, h1, h2, h3]
      rfl
    · rw [alMerge, alGet_append, alGet_singleton_eq]
      rfl
  · intro out h1 h2 h3
    constructor
    · simp only [gtdMembersAux, h1, h2, h3]
      rfl
    · rw [alMerge, alMerge, alGet_append, alGet_append, h3, alGet_singleton_eq]
      rfl

/-- Witness for C1: the member-hit case at a concrete recursive result. -/
theorem claim_C1_witness :
    gtdMembersAux "g" (fun c1 _ => Except.ok ⟨[("x", ResVal.rinst (TaskInstance.adhocTask []))], c1, []⟩)
        ["x"] [] emptyCache =
      gtdMembersAux "g" (fun c1 _ => Except.ok ⟨[("x", ResVal.rinst (TaskInstance.adhocTask []))], c1, []⟩)
        [] (alMerge [] [("x", ResVal.pairSome "g" (ResVal.rinst (TaskInstance.adhocTask [])))])
        emptyCache ∧
    alGet (alMerge [] [("x", ResVal.pairSome "g" (ResVal.rinst (TaskInstance.adhocTask [])))]) "x" =
      some (ResVal.pairSome "g" (ResVal.rinst (TaskInstance.adhocTask []))) :=
  (claim_C1_group_member_resolution "g"
    (fun c1 _ => Except.ok ⟨[("x", ResVal.rinst (TaskInstance.adhocTask []))], c1, []⟩)
    "x" [] [] emptyCache).2.1
    ⟨[("x", ResVal.rinst (TaskInstance.adhocTask []))], emptyCache, []⟩
    (ResVal.rinst (TaskInstance.adhocTask []))
    (by decide) (by decide) (by decide)

/-! Monotonicity of the task registry under discovery: every operation only
appends entries, which is what makes the two-pass ordering sound. -/

/-- Growth relation: the second state carries the first task registry as a
prefix. -/
def trExtends (st st2 : Registries) : Prop :=
  ∃ d, st2.taskRegistry = st.taskRegistry ++ d

theorem trExtends_refl (st : Registries) : trExtends st st :=
  ⟨[], by simp⟩

theorem trExtends_trans {a b c2 : Registries} (h1 : trExtends a b)
    (h2 : trExtends b c2) : trExtends a c2 := by
  rcases h1 with ⟨d1, e1⟩
  rcases h2 with ⟨d2, e2⟩
  exact ⟨d1 ++ d2, by rw [e2, e1, List.append_assoc]⟩

theorem alHasKey_mono {st st2 : Registries} (k : String) (h : trExtends st st2)
    (hk : alHasKey st.taskRegistry k = true) : alHasKey st2.taskRegistry k = true := by
  rcases h with ⟨d, e⟩
  rw [e, alHasKey_append, hk]
  rfl

theorem registerGroupReg_taskRegistry (st : Registries) (g t : String) :
    (registerGroupReg st g t).taskRegistry = st.taskRegistry := by
  unfold registerGroupReg
  rcases alGet st.groupRegistry g <;> rfl

theorem foldl_registerGroupReg_taskRegistry (gs : List String) (st : Registries)
    (t : String) :
    (gs.foldl (fun acc g => registerGroupReg acc g t) st).taskRegistry =
      st.taskRegistry := by
  induction gs generalizing st with
  | nil => rfl
  | cons g rest ih => rw [List.foldl_cons, ih, registerGroupReg_taskRegistry]

theorem rct_extends (cfg : Dict) (st : Registries) :
    trExtends st (register_configurable_task cfg st).1 := by
  unfold register_configurable_task
  rcases h : alGet cfg "task" with _ | tv
  · exact trExtends_refl st
  · rcases tv with tname | l | kv
    · dsimp only
      rcases hg : alGet cfg "group" with _ | gv
      · exact ⟨_, rfl⟩
      · dsimp only
        by_cases hc : gv = Val.s tname
        · rw [if_pos hc]
          exact ⟨_, rfl⟩
        · rw [if_neg hc]
          refine ⟨[(tname, RegVal.cls (freshObj st cfg tname).1)], ?_⟩
          dsimp only
          rw [foldl_registerGroupReg_taskRegistry]
          rfl
    · exact trExtends_refl st
    · exact trExtends_refl st

theorem registerConfigList_cons (c : Dict) (rest : List Dict) (st : Registries) :
    registerConfigList (c :: rest) st =
      (match register_configurable_task c st with
       | (st1, none) => registerConfigList rest st1
       | (st1, some e) => (st1, some e)) := rfl

theorem registerConfigList_extends (cfgs : List Dict) (st : Registries) :
    trExtends st (registerConfigList cfgs st).1 := by
  induction cfgs generalizing st with
  | nil => exact trExtends_refl st
  | cons c rest ih =>
      rw [registerConfigList_cons]
      rcases h : register_configurable_task c st with ⟨st1, oe⟩
      have h1 : trExtends st st1 := by
        have h2 := rct_extends c st
        rw [h] at h2
        exact h2
      cases oe
      · exact trExtends_trans h1 (ih st1)
      · exact h1

theorem rcgProcessMembers_extends (lp : PromptOracle) (g yamlPath : String)
    (ds : List Dict) (st : Registries) :
    trExtends st (rcgProcessMembers lp g yamlPath ds st).1 := by
  induction ds generalizing st with
  | nil => exact trExtends_refl st
  | cons d rest ih =>
      rw [rcgProcessMembers_cons]
      rcases hfb : rcgFetchBase st d g with e | bt
  -- the fetch error aborts with the current state
      · exact trExtends_refl st
      · dsimp only
        rcases hc : check_prompt_config lp
            ((bt.1 ++ load_yaml_config yamlPath d ++ [("group", Val.s g)]) ++ bt.2)
            (dirname yamlPath) with e | vcs
        · exact trExtends_refl st
        · dsimp only
          rcases h : registerConfigList vcs st with ⟨st1, oe⟩
          have h1 : trExtends st st1 := by
            have h2 := registerConfigList_extends vcs st
            rw [h] at h2
            exact h2
          cases oe
          · exact trExtends_trans h1 (ih st1)
          · exact h1

theorem rcgLinkNames_taskRegistry (g : String) (names : List String)
    (st : Registries) :
    (rcgLinkNames g names st).taskRegistry = st.taskRegistry := by
  induction names generalizing st with
  | nil => rfl
  | cons t rest ih =>
      show (rcgLinkNames g rest _).taskRegistry = _
      rw [ih]
      dsimp only
      by_cases hc : (alHasKey st.taskRegistry t || alHasKey st.groupRegistry t) = true
      · rw [if_pos hc]
        rcases alGet st.groupRegistry g <;> rfl
      · rw [if_neg hc]

theorem rcg_extends (lp : PromptOracle) (cfg : Dict) (yamlPath : String)
    (st : Registries) :
    trExtends st (register_configurable_group lp cfg yamlPath st).1 := by
  unfold register_configurable_group
  rcases hg : alGet cfg "group" with _ | gv
  · exact trExtends_refl st
  · rcases gv with g | l | kv
    · dsimp only
      rcases ht : alGet cfg "task" with _ | tv
      · exact trExtends_refl st
      · rcases tv with tn | l2 | kv2
        · exact trExtends_refl st
        · dsimp only
          rcases h : rcgProcessMembers lp g yamlPath
              (List.filterMap (fun v => match v with
                | Val.vdict kv => some kv.toDict
                | _ => none) l2.toList) st with ⟨st1, oe⟩
          have h1 : trExtends st st1 := by
            have h2 := rcgProcessMembers_extends lp g yamlPath
              (List.filterMap (fun v => match v with
                | Val.vdict kv => some kv.toDict
                | _ => none) l2.toList) st
            rw [h] at h2
            exact h2
          rcases oe with _ | e
          · rcases h1 with ⟨d, e2⟩
            refine ⟨d, ?_⟩
            rw [h]
            dsimp only
            rw [rcgLinkNames_taskRegistry, e2]
          · rw [h]
            exact h1
        · exact trExtends_refl st
    · exact trExtends_refl st
    · exact trExtends_refl st

theorem processConfigs_cons (lp : PromptOracle) (rt : Bool) (yamlPath : String)
    (c : Dict) (rest : List Dict) (st : Registries) :
    processConfigs lp rt yamlPath (c :: rest) st =
      (match (if rt then
          match alGet c "task" with
          | some (Val.s _) => register_configurable_task c st
          | some _ => (st, none)
          | none => (st, some (PyErr.keyError "task"))
        else
          match alGet c "task" with
          | some (Val.vlist _) => register_configurable_group lp c yamlPath st
          | some _ => (st, none)
          | none => (st, some (PyErr.keyError "task"))) with
       | (st1, none) => processConfigs lp rt yamlPath rest st1
       | (st1, some e) => (st1, some e)) := rfl

theorem processConfigs_extends (lp : PromptOracle) (rt : Bool) (yamlPath : String)
    (cfgs : List Dict) (st : Registries) :
    trExtends st (processConfigs lp rt yamlPath cfgs st).1 := by
  induction cfgs generalizing st with
  | nil => exact trExtends_refl st
  | cons c rest ih =>
      rw [processConfigs_cons]
      have hstep : ∀ p : Registries × Option PyErr, trExtends st p.1 →
          trExtends st (match p with
            | (st1, none) => processConfigs lp rt yamlPath rest st1
            | (st1, some e) => (st1, some e)).1 := by
        rintro ⟨st1, oe⟩ h1
        cases oe
        · exact trExtends_trans h1 (ih st1)
        · exact h1
      apply hstep
      cases rt
      · simp only [Bool.false_eq_true, if_false]
        rcases alGet c "task" with _ | tv
        · exact trExtends_refl st
        rcases tv with tn | l2 | kv2
        · exact trExtends_refl st
        · exact rcg_extends lp c yamlPath st
        · exact trExtends_refl st
      · simp only [if_true]
        rcases alGet c "task" with _ | tv
        · exact trExtends_refl st
        rcases tv with tn | l2 | kv2
        · exact rct_extends c st
        · exact trExtends_refl st
        · exact trExtends_refl st

theorem processFile_extends (lp : PromptOracle) (rt : Bool) (f : FileItem)
    (st : Registries) :
    trExtends st (processFile lp rt f st).1 := by
  unfold processFile
  rcases hl : f.load with cfg | m | m
  · dsimp only
    by_cases hk : alHasKey cfg "task" = true
    · rw [if_pos hk]
      rcases hc : check_prompt_config lp cfg (dirname f.path) with e | cfgs
      · exact trExtends_refl st
      · exact processConfigs_extends lp rt f.path cfgs st
    · rw [if_neg hk]
      exact trExtends_refl st
  · exact trExtends_refl st
  · exact trExtends_refl st

theorem itfStep_extends (lp : PromptOracle) (rt : Bool) (acc : Registries × Bool)
    (f : FileItem) :
    trExtends acc.1 (itfStep lp rt acc f).1 := by
  unfold itfStep
  by_cases hy : strEndsWith f.path ".yaml" = true
  · rw [if_pos hy]
    rcases h : processFile lp rt f acc.1 with ⟨st1, oe⟩
    have h1 : trExtends acc.1 st1 := by
      have h2 := processFile_extends lp rt f acc.1
      rw [h] at h2
      exact h2
    cases oe
    · exact h1
    · exact h1
  · rw [if_neg hy]
    exact trExtends_refl acc.1

theorem itfGo_extends (lp : PromptOracle) (rt : Bool) (files : List FileItem)
    (acc : Registries × Bool) :
    trExtends acc.1 (itfGo lp rt files acc).1 := by
  induction files generalizing acc with
  | nil => exact trExtends_refl acc.1
  | cons f rest ih =>
      show trExtends acc.1 (itfGo lp rt rest (itfStep lp rt acc f)).1
      exact trExtends_trans (itfStep_extends lp rt acc f) (ih (itfStep lp rt acc f))

/-- Expansion of a config without a prompt selector is the one-element list
holding the config unchanged. -/
theorem check_prompt_config_no_selector (lp : PromptOracle) (cfg : Dict)
    (yamlPath : String) (h : alHasKey cfg "use_prompt" = false) :
    check_prompt_config lp cfg yamlPath = Except.ok [cfg] := by
  unfold check_prompt_config
  rw [h]
  rfl

/-- A config with a scalar task name leaves `register_configurable_task` with
that name in the task registry, on the success and on the collision path
alike. -/
theorem rct_registers (cfg : Dict) (st : Registries) (t : String)
    (ht : alGet cfg "task" = some (Val.s t)) :
    alHasKey (register_configurable_task cfg st).1.taskRegistry t = true := by
  unfold register_configurable_task
  rw [ht]
  dsimp only
  rcases hg : alGet cfg "group" with _ | gv
  · exact alHasKey_insert_self _ t _
  · dsimp only
    by_cases hc : gv = Val.s t
    · rw [if_pos hc]
      exact alHasKey_insert_self _ t _
    · rw [if_neg hc]
      dsimp only
      rw [foldl_registerGroupReg_taskRegistry]
      exact alHasKey_insert_self _ t _

/-- Pass-1 processing of a selector-free scalar-task file puts the task name
into the registry, whatever else the registration reports. -/
theorem processFile_registers (lp : PromptOracle) (f : FileItem) (st : Registries)
    (cfg : Dict) (t : String)
    (hl : f.load = FileLoad.parsed cfg)
    (ht : alGet cfg "task" = some (Val.s t))
    (hup : alHasKey cfg "use_prompt" = false) :
    alHasKey (processFile lp true f st).1.taskRegistry t = true := by
  unfold processFile
  rw [hl]
  dsimp only
  have hk : alHasKey cfg "task" = true := by
    rw [alHasKey_eq_isSome, ht]
    rfl
  rw [if_pos hk, check_prompt_config_no_selector lp cfg _ hup]
  dsimp only
  rw [processConfigs_cons, if_pos rfl, ht]
  dsimp only
  rcases h : register_configurable_task cfg st with ⟨st1, oe⟩
  have h1 : alHasKey st1.taskRegistry t = true := by
    have h2 := rct_registers cfg st t ht
    rw [h] at h2
    exact h2
  cases oe
  · exact h1
  · exact h1

theorem itfGo_cons (lp : PromptOracle) (rt : Bool) (f : FileItem)
    (rest : List FileItem) (acc : Registries × Bool) :
    itfGo lp rt (f :: rest) acc = itfGo lp rt rest (itfStep lp rt acc f) := rfl

theorem itfGo_append (lp : PromptOracle) (rt : Bool) (xs ys : List FileItem)
    (acc : Registries × Bool) :
    itfGo lp rt (xs ++ ys) acc = itfGo lp rt ys (itfGo lp rt xs acc) := by
  unfold itfGo
  rw [List.foldl_append]

theorem itfStep_fst_flag (lp : PromptOracle) (rt : Bool) (s : Registries)
    (b b2 : Bool) (f : FileItem) :
    (itfStep lp rt (s, b) f).1 = (itfStep lp rt (s, b2) f).1 := by
  unfold itfStep
  by_cases hy : strEndsWith f.path ".yaml" = true
  · rw [if_pos hy, if_pos hy]
    dsimp only
    rcases processFile lp rt f s with ⟨st1, oe⟩
    cases oe <;> rfl
  · rw [if_neg hy, if_neg hy]

theorem itfGo_fst_flag (lp : PromptOracle) (rt : Bool) (files : List FileItem)
    (s : Registries) (b b2 : Bool) :
    (itfGo lp rt files (s, b)).1 = (itfGo lp rt files (s, b2)).1 := by
  induction files generalizing s b b2 with
  | nil => rfl
  | cons f rest ih =>
      rw [itfGo_cons, itfGo_cons]
      rcases h1 : itfStep lp rt (s, b) f with ⟨s1, bb1⟩
      rcases h2 : itfStep lp rt (s, b2) f with ⟨s2, bb2⟩
      have hs : s1 = s2 := by
        have h3 := itfStep_fst_flag lp rt s b b2 f
        rw [h1, h2] at h3
        exact h3
      subst hs
      exact ih s1 bb1 bb2

/-- After the pass-1 walk over a file set, every selector-free scalar-task
definition of the set has its name in the task registry, whatever the
iteration order was. -/
theorem itfGo_registers (lp : PromptOracle) (files : List FileItem)
    (st : Registries) (b : Bool) (f : FileItem) (cfg : Dict) (t : String)
    (hf : f ∈ files) (hy : strEndsWith f.path ".yaml" = true)
    (hl : f.load = FileLoad.parsed cfg)
    (ht : alGet cfg "task" = some (Val.s t))
    (hup : alHasKey cfg "use_prompt" = false) :
    alHasKey (itfGo lp true files (st, b)).1.taskRegistry t = true := by
  obtain ⟨xs, ys, rfl⟩ := List.append_of_mem hf
  rw [itfGo_append, itfGo_cons]
  rcases hpre : itfGo lp true xs (st, b) with ⟨s1, b1⟩
  have hstep : alHasKey (itfStep lp true (s1, b1) f).1.taskRegistry t = true := by
    unfold itfStep
    rw [if_pos hy]
    dsimp only
    rcases hp : processFile lp true f s1 with ⟨s2, oe⟩
    have h2 := processFile_registers lp f s1 cfg t hl ht hup
    rw [hp] at h2
    cases oe
    · exact h2
    · exact h2
  exact alHasKey_mono t (itfGo_extends lp true ys (itfStep lp true (s1, b1) f)) hstep

/-- Pass 1 leaves a sequence-task definition alone. -/
theorem processFile_pass1_skips_group (lp : PromptOracle) (f : FileItem)
    (st : Registries) (cfg : Dict) (l : ValList)
    (hl : f.load = FileLoad.parsed cfg)
    (ht : alGet cfg "task" = some (Val.vlist l))
    (hup : alHasKey cfg "use_prompt" = false) :
    processFile lp true f st = (st, none) := by
  unfold processFile
  rw [hl]
  dsimp only
  have hk : alHasKey cfg "task" = true := by
    rw [alHasKey_eq_isSome, ht]
    rfl
  rw [if_pos hk, check_prompt_config_no_selector lp cfg _ hup]
  dsimp only
  rw [processConfigs_cons, if_pos rfl, ht]
  rfl

/-- Pass 2 leaves a scalar-task definition alone. -/
theorem processFile_pass2_skips_scalar (lp : PromptOracle) (f : FileItem)
    (st : Registries) (cfg : Dict) (t : String)
    (hl : f.load = FileLoad.parsed cfg)
    (ht : alGet cfg "task" = some (Val.s t))
    (hup : alHasKey cfg "use_prompt" = false) :
    processFile lp false f st = (st, none) := by
  unfold processFile
  rw [hl]
  dsimp only
  have hk : alHasKey cfg "task" = true := by
    rw [alHasKey_eq_isSome, ht]
    rfl
  rw [if_pos hk, check_prompt_config_no_selector lp cfg _ hup]
  dsimp only
  rw [processConfigs_cons, if_neg (by decide), ht]
  rfl

/-- On the discovery path — no usable cache restore — include_path is exactly
the two walk passes over the same files, tasks first then groups. -/
theorem include_path_discovery (lp : PromptOracle) (files : List FileItem)
    (u r : Bool) (st : Registries) (c : Cache)
    (h : (!r && (snapTruthy c.taskRegSnap && snapTruthy c.groupRegSnap
        && snapTruthy c.allTasksSnap)) = false) :
    (include_path lp files u r st c).1 =
      (include_task_folder lp files false
        (include_task_folder lp files true st).1).1 := by
  unfold include_path
  rw [if_neg (by rw [h]; decide)]

/-- C2: the discovery path of include_path runs exactly two full passes over
the same definition files; pass 1 registers a definition only when its task
field is a scalar string and pass 2 processes one only when its task field is
a sequence; consequently a selector-free scalar task of the file set is in
the task registry already after pass 1, and is still there at every point of
pass 2 — independent of the file iteration order, which enters only through
the membership hypothesis. -/
theorem claim_C2_two_pass_ordering (lp : PromptOracle) (files : List FileItem)
    (st : Registries) (f : FileItem) (cfg : Dict) (t : String)
    (hf : f ∈ files) (hy : strEndsWith f.path ".yaml" = true)
    (hl : f.load = FileLoad.parsed cfg)
    (ht : alGet cfg "task" = some (Val.s t))
    (hup : alHasKey cfg "use_prompt" = false) :
    (∀ u r c, (!r && (snapTruthy c.taskRegSnap && snapTruthy c.groupRegSnap
        && snapTruthy c.allTasksSnap)) = false →
      (include_path lp files u r st c).1 =
        (include_task_folder lp files false
          (include_task_folder lp files true st).1).1) ∧
    (∀ st2 f2 cfg2 l, f2.load = FileLoad.parsed cfg2 →
      alGet cfg2 "task" = some (Val.vlist l) →
      alHasKey cfg2 "use_prompt" = false →
      processFile lp true f2 st2 = (st2, none)) ∧
    (∀ st2 f2 cfg2 t2, f2.load = FileLoad.parsed cfg2 →
      alGet cfg2 "task" = some (Val.s t2) →
      alHasKey cfg2 "use_prompt" = false →
      processFile lp false f2 st2 = (st2, none)) ∧
    alHasKey (include_task_folder lp files true st).1.taskRegistry t = true ∧
    (∀ xs b2, alHasKey (itfGo lp false xs
        ((include_task_folder lp files true st).1, b2)).1.taskRegistry t = true) := by
  refine ⟨?_, ?_, ?_, ?_, ?_⟩
  · intro u r c h
    exact include_path_discovery lp files u r st c h
  · intro st2 f2 cfg2 l h1 h2 h3
    exact processFile_pass1_skips_group lp f2 st2 cfg2 l h1 h2 h3
  · intro st2 f2 cfg2 t2 h1 h2 h3
    exact processFile_pass2_skips_scalar lp f2 st2 cfg2 t2 h1 h2 h3
  · exact itfGo_registers lp files st false f cfg t hf hy hl ht hup
  · intro xs b2
    exact alHasKey_mono t (itfGo_extends lp false xs _)
      (itfGo_registers lp files st false f cfg t hf hy hl ht hup)

def exF1 : FileItem := ⟨"dir/t1.yaml", FileLoad.parsed [("task", Val.s "alpha")]⟩

def exF2 : FileItem := ⟨"dir/t2.yaml", FileLoad.parsed [("task", Val.s "beta")]⟩

def exFg : FileItem :=
  ⟨"dir/g.yaml", FileLoad.parsed [("group", Val.s "mygroup"),
    ("task", Val.vlist (ValList.cons (Val.s "alpha")
      (ValList.cons (Val.s "beta") ValList.nil)))]⟩

def exFbad : FileItem := ⟨"dir/bad.yaml", FileLoad.loadFailed "boom"⟩

def exSt0 : Registries := ⟨[], [], [], 0⟩

/-- Witness for C2 at a concrete three-file set — two plain tasks and one
group over them. -/
theorem claim_C2_witness :
    alHasKey (include_task_folder lpNone [exF1, exF2, exFg] true exSt0).1.taskRegistry
      "alpha" = true ∧
    (include_path lpNone [exF1, exF2, exFg] false false exSt0 emptyCache).1 =
      (include_task_folder lpNone [exF1, exF2, exFg] false
        (include_task_folder lpNone [exF1, exF2, exFg] true exSt0).1).1 :=
  ⟨(claim_C2_two_pass_ordering lpNone [exF1, exF2, exFg] exSt0 exF1
      [("task", Val.s "alpha")] "alpha" (by decide) (by decide) (by decide)
      (by decide) (by decide)).2.2.2.1,
   (claim_C2_two_pass_ordering lpNone [exF1, exF2, exFg] exSt0 exF1
      [("task", Val.s "alpha")] "alpha" (by decide) (by decide) (by decide)
      (by decide) (by decide)).1 false false emptyCache (by decide)⟩

/-- C8: a yaml file whose body raises is caught by the walker step — the walk
continues over the remaining files with the state reached and, for a
dependency failure, the aggregate flag set; the registry outcome never
depends on the flag; a file whose load itself fails leaves the registries
untouched, so the walk result equals the walk without that file; and the two
load-failure classes surface exactly as the import-like and the generic
error of the file body, which the step consumes — the walker returns a plain
state/flag pair with no error channel at all. -/
theorem claim_C8_per_file_failures_contained (lp : PromptOracle) (rt : Bool) :
    (∀ f rest st0 b st1 e, strEndsWith f.path ".yaml" = true →
      processFile lp rt f st0 = (st1, some e) →
      itfGo lp rt (f :: rest) (st0, b) = itfGo lp rt rest (st1, b || isDepErr e)) ∧
    (∀ files s b b2, (itfGo lp rt files (s, b)).1 = (itfGo lp rt files (s, b2)).1) ∧
    (∀ xs ys f s b m, (f.load = FileLoad.depFailed m ∨ f.load = FileLoad.loadFailed m) →
      (itfGo lp rt (xs ++ f :: ys) (s, b)).1 = (itfGo lp rt (xs ++ ys) (s, b)).1) ∧
    (∀ f st0 m, f.load = FileLoad.depFailed m →
      processFile lp rt f st0 = (st0, some (PyErr.importError m))) ∧
    (∀ f st0 m, f.load = FileLoad.loadFailed m →
      processFile lp rt f st0 = (st0, some (PyErr.otherError m))) := by
  refine ⟨?_, ?_, ?_, ?_, ?_⟩
  · intro f rest st0 b st1 e hy hp
    have hstep : itfStep lp rt (st0, b) f = (st1, b || isDepErr e) := by
      unfold itfStep
      rw [if_pos hy]
      dsimp only
      rw [hp]
    rw [itfGo_cons, hstep]
  · intro files s b b2
    exact itfGo_fst_flag lp rt files s b b2
  · intro xs ys f s b m hm
    rw [itfGo_append, itfGo_append, itfGo_cons]
    rcases hpre : itfGo lp rt xs (s, b) with ⟨s1, b1⟩
    have hpf : ∃ e2, processFile lp rt f s1 = (s1, some e2) := by
      rcases hm with h | h
      · exact ⟨PyErr.importError m, by unfold processFile; rw [h]⟩
      · exact ⟨PyErr.otherError m, by unfold processFile; rw [h]⟩
    rcases hpf with ⟨e2, hpf⟩
    by_cases hy : strEndsWith f.path ".yaml" = true
    · have hstep : itfStep lp rt (s1, b1) f = (s1, b1 || isDepErr e2) := by
        unfold itfStep
        rw [if_pos hy]
        dsimp only
        rw [hpf]
      rw [hstep]
      exact itfGo_fst_flag lp rt ys s1 (b1 || isDepErr e2) b1
    · have hstep : itfStep lp rt (s1, b1) f = (s1, b1) := by
        unfold itfStep
        rw [if_neg hy]
      rw [hstep]
  · intro f st0 m h
    unfold processFile
    rw [h]
  · intro f st0 m h
    unfold processFile
    rw [h]

/-- Witness for C8: a walk over a failing file equals the walk without it,
and the failing load surfaces as the generic error the step consumes. -/
theorem claim_C8_witness :
    (itfGo lpNone true ([exF1] ++ exFbad :: [exF2]) (exSt0, false)).1 =
      (itfGo lpNone true ([exF1] ++ [exF2]) (exSt0, false)).1 ∧
    processFile lpNone true exFbad exSt0 =
      (exSt0, some (PyErr.otherError "boom")) :=
  ⟨(claim_C8_per_file_failures_contained lpNone true).2.2.1 [exF1] [exF2] exFbad
      exSt0 false "boom" (Or.inr (by decide)),
   (claim_C8_per_file_failures_contained lpNone true).2.2.2.2 exFbad exSt0 "boom"
      (by decide)⟩

end LmEval
